import Mathlib

/-!
A Lean 4 shallow embedding of the Brands e-cash library (crate `brands`).

Big unsigned integers (`num_bigint::BigUint`) are modelled as `Nat`.
Randomly sampled scalars become explicit function arguments.  Rust panics
(`Option::unwrap`, `assert!`) are modelled by returning `Option.none`.
Byte strings are `List Nat` with every element below 256; the Rust
`String` scheme key enters only through its UTF-8 bytes, so `Params`
stores the byte list directly.
-/

set_option maxRecDepth 200000
set_option maxHeartbeats 2000000

namespace Brands

/-! ## Arithmetic primitives -/

/-- `2 ^ 32`, the word modulus of SHA-256. -/
def M32 : Nat := 4294967296

/-- Fuel-driven square-and-multiply core of `BigUint::modpow`. -/
def modpowFuel : Nat → Nat → Nat → Nat → Nat
  | 0, _, _, m => 1 % m
  | fuel + 1, b, e, m =>
    if e = 0 then 1 % m
    else
      let h := modpowFuel fuel ((b * b) % m) (e / 2) m
      if e % 2 = 1 then (h * (b % m)) % m else h

/-- `BigUint::modpow`: modular exponentiation, `b ^ e mod m`. -/
def modpow (b e m : Nat) : Nat := modpowFuel e b e m

/-- `BigUint::modinv`: the multiplicative inverse of `a` modulo `m` when it
exists (`some b` with `a * b ≡ 1 (mod m)` and `b < m`), otherwise `none`. -/
def modinv (a m : Nat) : Option Nat :=
  (List.range m).find? (fun b => a * b % m == 1 % m)

/-! ## Byte encoding (`BigUint::to_bytes_le` / `from_bytes_le`) -/

/-- Fuel-driven little-endian byte expansion. -/
def toBytesLEAux : Nat → Nat → List Nat
  | 0, _ => []
  | fuel + 1, n => if n = 0 then [] else n % 256 :: toBytesLEAux fuel (n / 256)

/-- `BigUint::to_bytes_le`: minimal little-endian bytes; zero is `[0]`. -/
def toBytesLE (n : Nat) : List Nat :=
  if n = 0 then [0] else toBytesLEAux n n

/-- `BigUint::from_bytes_le`: read a little-endian byte list as a number. -/
def fromBytesLE (bs : List Nat) : Nat :=
  bs.foldr (fun b acc => b + 256 * acc) 0

/-! ## SHA-256 -/

/-- The 64 SHA-256 round constants. -/
def K256 : List Nat := [1116352408, 1899447441, 3049323471, 3921009573,
  961987163, 1508970993, 2453635748, 2870763221, 3624381080, 310598401,
  607225278, 1426881987, 1925078388, 2162078206, 2614888103, 3248222580,
  3835390401, 4022224774, 264347078, 604807628, 770255983, 1249150122,
  1555081692, 1996064986, 2554220882, 2821834349, 2952996808, 3210313671,
  3336571891, 3584528711, 113926993, 338241895, 666307205, 773529912,
  1294757372, 1396182291, 1695183700, 1986661051, 2177026350, 2456956037,
  2730485921, 2820302411, 3259730800, 3345764771, 3516065817, 3600352804,
  4094571909, 275423344, 430227734, 506948616, 659060556, 883997877,
  958139571, 1322822218, 1537002063, 1747873779, 1955562222, 2024104815,
  2227730452, 2361852424, 2428436474, 2756734187, 3204031479, 3329325298]

/-- The SHA-256 working state: eight 32-bit words. -/
structure Hash8 where
  a : Nat
  b : Nat
  c : Nat
  d : Nat
  e : Nat
  f : Nat
  g : Nat
  h : Nat

/-- The SHA-256 initial hash value. -/
def sha256Init : Hash8 :=
  ⟨1779033703, 3144134277, 1013904242, 2773480762,
   1359893119, 2600822924, 528734635, 1541459225⟩

/-- Right rotation of a 32-bit word. -/
def rotr32 (n x : Nat) : Nat := ((x >>> n) ||| (x <<< (32 - n))) % M32

/-- Group a byte list into 32-bit big-endian words. -/
def toWordsBE : List Nat → List Nat
  | b0 :: b1 :: b2 :: b3 :: rest =>
    (((b0 * 256 + b1) * 256 + b2) * 256 + b3) :: toWordsBE rest
  | _ => []

/-- Render one 32-bit word as four big-endian bytes. -/
def wordBytesBE (w : Nat) : List Nat :=
  [w / 16777216 % 256, w / 65536 % 256, w / 256 % 256, w % 256]

/-- One step of the SHA-256 message-schedule extension. -/
def scheduleStep (acc : List Nat) : List Nat :=
  let i := acc.length
  let w15 := acc.getD (i - 15) 0
  let w2 := acc.getD (i - 2) 0
  let s0 := rotr32 7 w15 ^^^ rotr32 18 w15 ^^^ (w15 >>> 3)
  let s1 := rotr32 17 w2 ^^^ rotr32 19 w2 ^^^ (w2 >>> 10)
  acc ++ [(acc.getD (i - 16) 0 + s0 + acc.getD (i - 7) 0 + s1) % M32]

/-- Iterate the schedule extension `n` times. -/
def scheduleAux : Nat → List Nat → List Nat
  | 0, acc => acc
  | n + 1, acc => scheduleAux n (scheduleStep acc)

/-- Extend 16 message words to the 64-entry SHA-256 schedule. -/
def schedule (ws : List Nat) : List Nat := scheduleAux 48 ws

/-- One SHA-256 compression round, driven by a `(constant, word)` pair. -/
def sha256Round (st : Hash8) (kw : Nat × Nat) : Hash8 :=
  let s1 := rotr32 6 st.e ^^^ rotr32 11 st.e ^^^ rotr32 25 st.e
  let ch := (st.e &&& st.f) ^^^ ((st.e ^^^ 4294967295) &&& st.g)
  let t1 := (st.h + s1 + ch + kw.1 + kw.2) % M32
  let s0 := rotr32 2 st.a ^^^ rotr32 13 st.a ^^^ rotr32 22 st.a
  let mj := (st.a &&& st.b) ^^^ (st.a &&& st.c) ^^^ (st.b &&& st.c)
  let t2 := (s0 + mj) % M32
  ⟨(t1 + t2) % M32, st.a, st.b, st.c, (st.d + t1) % M32, st.e, st.f, st.g⟩

/-- Compress one padded 64-byte block into the running hash state. -/
def processBlock (hs : Hash8) (block : List Nat) : Hash8 :=
  let ws := schedule (toWordsBE block)
  let f := (K256.zip ws).foldl sha256Round hs
  ⟨(hs.a + f.a) % M32, (hs.b + f.b) % M32, (hs.c + f.c) % M32,
   (hs.d + f.d) % M32, (hs.e + f.e) % M32, (hs.f + f.f) % M32,
   (hs.g + f.g) % M32, (hs.h + f.h) % M32⟩

/-- The bit length of `n`, written as eight big-endian bytes. -/
def lenBytesBE (n : Nat) : List Nat :=
  [n >>> 56 % 256, n >>> 48 % 256, n >>> 40 % 256, n >>> 32 % 256,
   n >>> 24 % 256, n >>> 16 % 256, n >>> 8 % 256, n % 256]

/-- SHA-256 message padding: `0x80`, zeros, then the 64-bit bit length. -/
def padMessage (msg : List Nat) : List Nat :=
  let L := msg.length
  msg ++ 128 :: List.replicate ((119 - L % 64) % 64) 0 ++ lenBytesBE (8 * L)

/-- Fuel-driven split of a byte list into 64-byte blocks. -/
def toBlocksAux : Nat → List Nat → List (List Nat)
  | 0, _ => []
  | fuel + 1, bs =>
    if bs.isEmpty then [] else bs.take 64 :: toBlocksAux fuel (bs.drop 64)

/-- Split a padded message into its 64-byte blocks. -/
def toBlocks (bs : List Nat) : List (List Nat) := toBlocksAux bs.length bs

/-- SHA-256 of a byte list, as a 32-byte digest. -/
def sha256 (msg : List Nat) : List Nat :=
  let fin := (toBlocks (padMessage msg)).foldl processBlock sha256Init
  wordBytesBE fin.a ++ wordBytesBE fin.b ++ wordBytesBE fin.c ++
  wordBytesBE fin.d ++ wordBytesBE fin.e ++ wordBytesBE fin.f ++
  wordBytesBE fin.g ++ wordBytesBE fin.h

/-- HMAC-SHA256 with byte-list key and message. -/
def hmacSha256 (key msg : List Nat) : List Nat :=
  let k0 := if 64 < key.length then sha256 key else key
  let kp := k0 ++ List.replicate (64 - k0.length) 0
  sha256 ((kp.map (fun b => b ^^^ 92)) ++
    sha256 ((kp.map (fun b => b ^^^ 54)) ++ msg))

/-- `cryptographics::hash_to_number`: concatenate the data chunks, take
HMAC-SHA256 under `key`, and read the 32-byte tag little-endian. -/
def hash_to_number (key : List Nat) (data : List (List Nat)) : Nat :=
  fromBytesLE (hmacSha256 key (data.foldr (· ++ ·) []))

/-! ## Data model (`params.rs`, `coin.rs`, `withdrawal.rs`, `types.rs`) -/

/-- `Params`: the public group description.  `schemeKey` holds the UTF-8
bytes of the Rust `scheme_key` string. -/
structure Params where
  schemeKey : List Nat
  p : Nat
  q : Nat
  g : Nat
  g1 : Nat
  g2 : Nat
deriving DecidableEq

/-- `PartialCoin`: the five scalars sampled during `Spender::withdraw`. -/
structure PartialCoin where
  s : Nat
  x1 : Nat
  x2 : Nat
  u : Nat
  v : Nat
deriving DecidableEq

/-- `Coin`: the seven components of a ready-to-spend coin. -/
structure Coin where
  c1 : Nat
  c2 : Nat
  c3 : Nat
  c4 : Nat
  c5 : Nat
  c6 : Nat
  cd : Nat
deriving DecidableEq

/-- `CoinChallenge`: the receiver's challenge (a tuple struct in Rust). -/
structure CoinChallenge where
  val : Nat
deriving DecidableEq

/-- `SpentCoin`: a coin together with the spend responses. -/
structure SpentCoin where
  coin : Coin
  r1 : Nat
  r2 : Nat
deriving DecidableEq

/-- `Withdrawal`: the spender's local state between withdraw and make_coin. -/
structure Withdrawal where
  aByIssuer : Nat
  bByIssuer : Nat
  challengeD : Nat
  a : Nat
  b : Nat
  zd : Nat
  ad : Nat
  bd : Nat
  pcoin : PartialCoin
deriving DecidableEq

/-- `WithdrawalParams`: the issuer's public pair (a, b). -/
structure WithdrawalParams where
  a : Nat
  b : Nat
deriving DecidableEq

/-- `WithdrawalChallenge`: the spender's challenge c. -/
structure WithdrawalChallenge where
  c : Nat
deriving DecidableEq

/-- `WithdrawalResponse`: the issuer's response r. -/
structure WithdrawalResponse where
  r : Nat
deriving DecidableEq

/-- `WithdrawalResponseParams`: the issuer's private w. -/
structure WithdrawalResponseParams where
  w : Nat
deriving DecidableEq

/-- `Issuer`: parameters, public identity h, secret key x. -/
structure Issuer where
  params : Params
  h : Nat
  x : Nat
deriving DecidableEq

/-- `Spender`: parameters, public identity i, secret u1, optional
registration ID z. -/
structure Spender where
  params : Params
  i : Nat
  u1 : Nat
  z : Option Nat
deriving DecidableEq

/-! ## The derived equality of `Coin` and the custom one of `SpentCoin` -/

/-- The derived `PartialEq` on `Coin`: component-wise equality. -/
def coinEq (x y : Coin) : Bool :=
  x.c1 == y.c1 && x.c2 == y.c2 && x.c3 == y.c3 && x.c4 == y.c4 &&
  x.c5 == y.c5 && x.c6 == y.c6 && x.cd == y.cd

/-- The hand-written `PartialEq` on `SpentCoin`: equality of the inner
`Coin` only, ignoring (r1, r2). -/
def spentCoinEq (x y : SpentCoin) : Bool := coinEq x.coin y.coin

/-! ## Issuer operations (`issuer.rs`) -/

/-- `Issuer::new`, with the sampled secret x passed explicitly. -/
def Issuer.new (params : Params) (x : Nat) : Issuer :=
  { params := params, h := modpow params.g x params.p, x := x }

/-- `Issuer::register`: z = (i * g2)^x mod p. -/
def Issuer.register (iss : Issuer) (i : Nat) : Nat :=
  modpow (i * iss.params.g2) iss.x iss.params.p

/-- `Issuer::setup_withdrawal_params`, with the sampled w passed
explicitly: a = g^w mod p, b = (i * g2)^w mod p. -/
def Issuer.setup_withdrawal_params (iss : Issuer) (i w : Nat) :
    WithdrawalParams × WithdrawalResponseParams :=
  ({ a := modpow iss.params.g w iss.params.p,
     b := modpow (i * iss.params.g2) w iss.params.p },
   { w := w })

/-- `Issuer::withdrawal_response`: r = (w + c * x) mod q. -/
def Issuer.withdrawal_response (iss : Issuer) (wrp : WithdrawalResponseParams)
    (ch : WithdrawalChallenge) : WithdrawalResponse :=
  { r := (wrp.w + ch.c * iss.x) % iss.params.q }

/-! ## Spender operations (`spender.rs`) -/

/-- `Spender::new`, with the sampled secret u1 passed explicitly:
i = g1^u1 mod p, z unset. -/
def Spender.new (params : Params) (u1 : Nat) : Spender :=
  { params := params, i := modpow params.g1 u1 params.p, u1 := u1, z := none }

/-- `Spender::set_registration_id`. -/
def Spender.set_registration_id (sp : Spender) (z : Nat) : Spender :=
  { sp with z := some z }

/-- `Spender::withdraw`, with the five sampled scalars passed explicitly as
`pcoin`.  The two Rust panics (the `unwrap` of z and the `unwrap` of
`u.modinv(q)`) are modelled by `none`; the products for b, ad and bd carry
no trailing reduction mod p, exactly as in the source. -/
def Spender.withdraw (sp : Spender) (wsp : WithdrawalParams)
    (pcoin : PartialCoin) : Option (Withdrawal × WithdrawalChallenge) :=
  match sp.z with
  | none => none
  | some z =>
    let p := sp.params.p
    let a := modpow (sp.i * sp.params.g2) pcoin.s p
    let b := modpow sp.params.g1 pcoin.x1 p * modpow sp.params.g2 pcoin.x2 p
    let zd := modpow z pcoin.s p
    let ad := modpow wsp.a pcoin.u p * modpow sp.params.g pcoin.v p
    let bd := modpow wsp.b (pcoin.s * pcoin.u) p * modpow a pcoin.v p
    let challengeD := hash_to_number sp.params.schemeKey
      [toBytesLE a, toBytesLE b, toBytesLE zd, toBytesLE ad, toBytesLE bd] % p
    match modinv pcoin.u sp.params.q with
    | none => none
    | some uinv =>
      some ({ aByIssuer := wsp.a, bByIssuer := wsp.b, challengeD := challengeD,
              a := a, b := b, zd := zd, ad := ad, bd := bd, pcoin := pcoin },
            { c := challengeD * uinv % sp.params.q })

/-- `Spender::verify_withdrawal_response`; the z `unwrap` panic is `none`. -/
def Spender.verify_withdrawal_response (sp : Spender) (h : Nat)
    (wd : Withdrawal) (wc : WithdrawalChallenge) (wr : WithdrawalResponse) :
    Option Bool :=
  match sp.z with
  | none => none
  | some z =>
    let p := sp.params.p
    if modpow (sp.i * sp.params.g2) wr.r p ≠
        (modpow z wc.c p * wd.bByIssuer) % p then some false
    else if modpow sp.params.g wr.r p ≠
        (modpow h wc.c p * wd.aByIssuer) % p then some false
    else some true

/-- `Spender::make_coin`: c6 = (r * u + v) mod q, other parts copied. -/
def Spender.make_coin (sp : Spender) (wd : Withdrawal)
    (wr : WithdrawalResponse) : Coin :=
  { c1 := wd.a, c2 := wd.b, c3 := wd.zd, c4 := wd.ad, c5 := wd.bd,
    c6 := (wr.r * wd.pcoin.u + wd.pcoin.v) % sp.params.q,
    cd := wd.challengeD }

/-- `Spender::spend`: r1 = (d * u1 * s + x1) mod q, r2 = (d * s + x2) mod q. -/
def Spender.spend (sp : Spender) (coin : Coin) (pcoin : PartialCoin)
    (ch : CoinChallenge) : SpentCoin :=
  { coin := coin,
    r1 := (ch.val * sp.u1 * pcoin.s + pcoin.x1) % sp.params.q,
    r2 := (ch.val * pcoin.s + pcoin.x2) % sp.params.q }

/-! ## Receiver predicates and extraction (`coin.rs`) -/

/-- `CoinChallenge::new`: the raw hash of (message, c1 bytes, c2 bytes). -/
def CoinChallenge.new (message : List Nat) (coin : Coin) : CoinChallenge :=
  ⟨hash_to_number message [toBytesLE coin.c1, toBytesLE coin.c2]⟩

/-- `Coin::verify`. -/
def Coin.verify (c : Coin) (h : Nat) (ps : Params) : Bool :=
  if c.c1 = 1 then false
  else
    let verCd := hash_to_number ps.schemeKey
      [toBytesLE c.c1, toBytesLE c.c2, toBytesLE c.c3,
       toBytesLE c.c4, toBytesLE c.c5] % ps.p
    if c.cd ≠ verCd then false
    else if (c.c4 * modpow h c.cd ps.p) % ps.p ≠ modpow ps.g c.c6 ps.p then
      false
    else if (c.c5 * modpow c.c3 c.cd ps.p) % ps.p ≠
        modpow c.c1 c.c6 ps.p then false
    else true

/-- `SpentCoin::verify`: c1^d * c2 ≡ g1^r1 * g2^r2 (mod p). -/
def SpentCoin.verify (sc : SpentCoin) (ch : CoinChallenge) (ps : Params) :
    Bool :=
  decide ((modpow sc.coin.c1 ch.val ps.p * sc.coin.c2) % ps.p =
    (modpow ps.g1 sc.r1 ps.p * modpow ps.g2 sc.r2 ps.p) % ps.p)

/-- `SpentCoin::reveal_identity`.  The `assert!` on coin equality and the
`unwrap` of `modinv` are modelled by `none`. -/
def SpentCoin.reveal_identity (x y : SpentCoin) (ps : Params) : Option Nat :=
  if spentCoinEq x y = false then none
  else
    let r1Diff := if y.r1 < x.r1 then x.r1 - y.r1
      else (x.r1 + ps.q - y.r1) % ps.q
    let r2Diff := if y.r2 < x.r2 then x.r2 - y.r2
      else (x.r2 + ps.q - y.r2) % ps.q
    match modinv r2Diff ps.q with
    | none => none
    | some inv => some (modpow ps.g1 (r1Diff * inv % ps.q) ps.p)

/-! ## Random parameter generation (`params.rs`) -/

/-- The prime search of `rand_prime`: the first prime at or above `n`,
found within `fuel` steps (the sieve iterator of the source never gives
up; the fuel only makes the search structural). -/
def findPrimeFrom : Nat → Nat → Option Nat
  | 0, _ => none
  | fuel + 1, n => if Nat.Prime n then some n else findPrimeFrom fuel (n + 1)

/-- `find_generator`: draw candidates `a` from the stream (each reduced
mod p, as `rand::random::<u64>() % p` does), returning the first with
`a^q mod p = 1`.  Stream exhaustion models only a never-returning loop. -/
def find_generator (p q : Nat) : List Nat → Option Nat
  | [] => none
  | a :: rest =>
    if modpow (a % p) q p = 1 then some (a % p) else find_generator p q rest

/-- One loop iteration's random draws for `random_params`: the draw
feeding `rand_prime`, and the three generator candidate streams. -/
structure RandAttempt where
  n : Nat
  gs : List Nat
  g1s : List Nat
  g2s : List Nat
deriving DecidableEq

/-- `random_params`: the retry loop, driven by an explicit list of random
draws.  Each iteration finds a prime q, rejects q = 2, requires p = 2q+1
prime, and samples three generators with no distinctness check, exactly
as the source does. -/
def random_params (schemeKey : List Nat) (fuel : Nat) :
    List RandAttempt → Option Params
  | [] => none
  | att :: rest =>
    match findPrimeFrom fuel att.n with
    | none => none
    | some q =>
      if q = 2 then random_params schemeKey fuel rest
      else
        let p := 2 * q + 1
        if Nat.Prime p then
          match find_generator p q att.gs, find_generator p q att.g1s,
              find_generator p q att.g2s with
          | some g, some g1, some g2 =>
            some { schemeKey := schemeKey, p := p, q := q,
                   g := g, g1 := g1, g2 := g2 }
          | _, _, _ => none
        else random_params schemeKey fuel rest

/-! ## Honest protocol composition

The composition of the protocol steps exercised by the crate's tests:
registration, withdrawal setup, withdraw, response, make_coin. -/

/-- The spender after honest registration with the issuer holding secret x. -/
def honestSpender (ps : Params) (x u1 : Nat) : Spender :=
  let iss := Issuer.new ps x
  let sp0 := Spender.new ps u1
  sp0.set_registration_id (iss.register sp0.i)

/-- One full honest withdrawal: issuer secret x, spender secret u1, issuer
nonce w, spender scalars pc.  `none` only when a Rust panic would occur. -/
def honestRun (ps : Params) (x u1 w : Nat) (pc : PartialCoin) : Option Coin :=
  let iss := Issuer.new ps x
  let sp := honestSpender ps x u1
  let pair := iss.setup_withdrawal_params sp.i w
  (sp.withdraw pair.1 pc).map
    (fun wdwc => sp.make_coin wdwc.1 (iss.withdrawal_response pair.2 wdwc.2))

/-- The value `Coin::verify` recomputes and compares against `cd`: the
hash of the first five components, reduced mod p. -/
def coinHash (ps : Params) (c : Coin) : Nat :=
  hash_to_number ps.schemeKey
    [toBytesLE c.c1, toBytesLE c.c2, toBytesLE c.c3,
     toBytesLE c.c4, toBytesLE c.c5] % ps.p

/-- The coin an honest run produces, with the inverse `uinv` of pc.u and
the Fiat-Shamir value `cd` as parameters (the run instantiates `cd` with
the hash of the first five components). -/
def honestCoinWith (ps : Params) (x u1 w : Nat) (pc : PartialCoin)
    (uinv cd : Nat) : Coin :=
  { c1 := modpow (modpow ps.g1 u1 ps.p * ps.g2) pc.s ps.p,
    c2 := modpow ps.g1 pc.x1 ps.p * modpow ps.g2 pc.x2 ps.p,
    c3 := modpow (modpow (modpow ps.g1 u1 ps.p * ps.g2) x ps.p) pc.s ps.p,
    c4 := modpow (modpow ps.g w ps.p) pc.u ps.p * modpow ps.g pc.v ps.p,
    c5 := modpow (modpow (modpow ps.g1 u1 ps.p * ps.g2) w ps.p)
            (pc.s * pc.u) ps.p
          * modpow (modpow (modpow ps.g1 u1 ps.p * ps.g2) pc.s ps.p)
            pc.v ps.p,
    c6 := ((w + cd * uinv % ps.q * x) % ps.q * pc.u + pc.v) % ps.q,
    cd := cd }

/-! ## Concrete values (the spec's S1 toy parameters) -/

/-- The S1 toy parameters: q = 11, p = 23, g = 2, g1 = 3, g2 = 4, with
scheme key "brandskey" (as UTF-8 bytes). -/
def tParams : Params :=
  ⟨[98, 114, 97, 110, 100, 115, 107, 101, 121], 23, 11, 2, 3, 4⟩

/-- The S1 toy partial coin: s = 2, x1 = 4, x2 = 6, u = 9, v = 1. -/
def tPC : PartialCoin := ⟨2, 4, 6, 9, 1⟩

/-- The coin of the honest S1 toy run (x = 7, u1 = 5, w = 3, tPC). -/
def tCoin : Coin := ⟨13, 24, 9, 18, 52, 0, 7⟩

/-- The toy spender (secret u1 = 5) after registration with the toy
issuer (secret x = 7). -/
def tSpender : Spender := honestSpender tParams 7 5

/-- The issuer-side public withdrawal parameters of the toy run (w = 3). -/
def tWParams : WithdrawalParams :=
  ((Issuer.new tParams 7).setup_withdrawal_params tSpender.i 3).1

/-! ## Lemmas about the arithmetic primitives -/

theorem modpowFuel_eq {m : Nat} :
    ∀ fuel b e, e < 2 ^ fuel → modpowFuel fuel b e m = b ^ e % m := by
  intro fuel
  induction fuel with
  | zero =>
    intro b e he
    have h0 : e = 0 := Nat.lt_one_iff.mp (by simpa using he)
    subst h0
    simp [modpowFuel]
  | succ n ih =>
    intro b e he
    by_cases h0 : e = 0
    · subst h0; simp [modpowFuel]
    · have hdiv : e / 2 < 2 ^ n := by
        rw [Nat.div_lt_iff_lt_mul (by norm_num)]
        calc e < 2 ^ (n + 1) := he
          _ = 2 ^ n * 2 := by rw [pow_succ]
      have hrec := ih ((b * b) % m) (e / 2) hdiv
      have hbase : ((b * b) % m) ^ (e / 2) % m = b ^ (2 * (e / 2)) % m := by
        rw [← Nat.pow_mod, ← pow_two, ← pow_mul]
      by_cases hodd : e % 2 = 1
      · have he2 : 2 * (e / 2) + 1 = e := by omega
        simp only [modpowFuel, if_neg h0, if_pos hodd, hrec, hbase]
        conv_rhs => rw [← he2, pow_succ, Nat.mul_mod]
      · have he2 : 2 * (e / 2) = e := by omega
        simp only [modpowFuel, if_neg h0, if_neg hodd, hrec, hbase, he2]

/-- `modpow` computes modular exponentiation. -/
theorem modpow_eq (b e m : Nat) : modpow b e m = b ^ e % m :=
  modpowFuel_eq e b e (Nat.lt_two_pow e)

/-- A successful `modinv` yields a multiplicative inverse. -/
theorem modinv_mul {a m b : Nat} (h : modinv a m = some b) :
    a * b % m = 1 % m := by
  have hp := List.find?_some h
  simpa using hp

/-- `modinv` succeeds on arguments coprime with the modulus. -/
theorem modinv_isSome {a m : Nat} (hm : 1 < m) (h : Nat.gcd a m = 1) :
    (modinv a m).isSome := by
  obtain ⟨b0, hb0⟩ := Nat.exists_mul_emod_eq_one_of_coprime h hm
  apply List.find?_isSome.mpr
  refine ⟨b0 % m, List.mem_range.mpr (Nat.mod_lt _ (by omega)), ?_⟩
  have hmm : a * (b0 % m) % m = a * b0 % m := by
    rw [Nat.mul_mod, Nat.mod_mod_of_dvd b0 (dvd_refl m), ← Nat.mul_mod]
  simp only [beq_iff_eq, hmm, hb0, Nat.mod_eq_of_lt hm]

/-- `modinv` fails on zero (for any modulus above one). -/
theorem modinv_zero_eq_none {m : Nat} (hm : 1 < m) : modinv 0 m = none := by
  apply List.find?_eq_none.mpr
  intro b _
  simp only [Nat.zero_mul, Nat.zero_mod, beq_iff_eq, Nat.mod_eq_of_lt hm]
  omega

/-- In a monoid, an element satisfying `x ^ q = 1` has all its powers
determined by the exponent mod q. -/
theorem pow_mod_of_pow_eq_one {M : Type*} [Monoid M] {x : M} {q : Nat}
    (h : x ^ q = 1) (e : Nat) : x ^ e = x ^ (e % q) := by
  conv_lhs => rw [← Nat.div_add_mod e q]
  rw [pow_add, pow_mul, h, one_pow, one_mul]

/-- Exponents that agree mod q give equal powers of such an element. -/
theorem pow_exp_congr {M : Type*} [Monoid M] {x : M} {q : Nat}
    (h : x ^ q = 1) {e1 e2 : Nat} (he : e1 % q = e2 % q) :
    x ^ e1 = x ^ e2 := by
  rw [pow_mod_of_pow_eq_one h e1, pow_mod_of_pow_eq_one h e2, he]

/-- Casting a `modpow` value into `ZMod p` gives the plain power. -/
theorem modpow_cast (p b e : Nat) :
    ((modpow b e p : Nat) : ZMod p) = (b : ZMod p) ^ e := by
  rw [modpow_eq, ZMod.natCast_mod, Nat.cast_pow]

/-! ## The three verification equations of the honest protocol -/

/-- First `Coin::verify` equation: c4 * h^cd ≡ g^c6 (mod p) for the
honestly derived c4 = a^u * g^v, h = g^x, c6 = (r*u + v) mod q. -/
theorem verify_exp1 (p q g x w u v uinv cd : Nat)
    (hg : modpow g q p = 1)
    (hu : u * uinv % q = 1 % q) :
    (modpow (modpow g w p) u p * modpow g v p * modpow (modpow g x p) cd p)
        % p
      = modpow g (((w + cd * uinv % q * x) % q * u + v) % q) p := by
  have hgz : (g : ZMod p) ^ q = 1 := by
    have hc := congrArg (Nat.cast : Nat → ZMod p) hg
    rwa [modpow_cast, Nat.cast_one] at hc
  have huz : (u : ZMod q) * uinv = 1 := by
    have hc := congrArg (Nat.cast : Nat → ZMod q) hu
    rwa [ZMod.natCast_mod, ZMod.natCast_mod, Nat.cast_mul, Nat.cast_one] at hc
  have hexp : (w * u + v + x * cd) % q
      = ((w + cd * uinv % q * x) % q * u + v) % q % q := by
    apply (ZMod.natCast_eq_natCast_iff' _ _ q).mp
    push_cast [ZMod.natCast_mod]
    linear_combination (-(cd : ZMod q) * x) * huz
  simp only [modpow_eq]
  apply (ZMod.natCast_eq_natCast_iff' _ _ p).mp
  push_cast [ZMod.natCast_mod]
  rw [← pow_mul, ← pow_mul, ← pow_add, ← pow_add]
  exact pow_exp_congr hgz hexp

/-- Second `Coin::verify` equation: c5 * c3^cd ≡ c1^c6 (mod p) for the
honestly derived c5 = b^(s*u) * A^v, c3 = z^s, c1 = A = (i*g2)^s with
i = g1^u1, z = (i*g2)^x. -/
theorem verify_exp2 (p q g1 g2 u1 x w s u v uinv cd : Nat)
    (hg1 : modpow g1 q p = 1) (hg2 : modpow g2 q p = 1)
    (hu : u * uinv % q = 1 % q) :
    (modpow (modpow (modpow g1 u1 p * g2) w p) (s * u) p
        * modpow (modpow (modpow g1 u1 p * g2) s p) v p
        * modpow (modpow (modpow (modpow g1 u1 p * g2) x p) s p) cd p) % p
      = modpow (modpow (modpow g1 u1 p * g2) s p)
          (((w + cd * uinv % q * x) % q * u + v) % q) p := by
  have hg1z : (g1 : ZMod p) ^ q = 1 := by
    have hc := congrArg (Nat.cast : Nat → ZMod p) hg1
    rwa [modpow_cast, Nat.cast_one] at hc
  have hg2z : (g2 : ZMod p) ^ q = 1 := by
    have hc := congrArg (Nat.cast : Nat → ZMod p) hg2
    rwa [modpow_cast, Nat.cast_one] at hc
  have hyz : ((g1 : ZMod p) ^ u1 * g2) ^ q = 1 := by
    rw [mul_pow, pow_right_comm, hg1z, one_pow, hg2z, one_mul]
  have huz : (u : ZMod q) * uinv = 1 := by
    have hc := congrArg (Nat.cast : Nat → ZMod q) hu
    rwa [ZMod.natCast_mod, ZMod.natCast_mod, Nat.cast_mul, Nat.cast_one] at hc
  have hexp : (w * (s * u) + s * v + x * (s * cd)) % q
      = (s * (((w + cd * uinv % q * x) % q * u + v) % q)) % q := by
    apply (ZMod.natCast_eq_natCast_iff' _ _ q).mp
    push_cast [ZMod.natCast_mod]
    linear_combination (-(s : ZMod q) * cd * x) * huz
  simp only [modpow_eq]
  apply (ZMod.natCast_eq_natCast_iff' _ _ p).mp
  push_cast [ZMod.natCast_mod]
  rw [← pow_mul, ← pow_mul, ← pow_mul, ← pow_mul, ← pow_mul,
    ← pow_add, ← pow_add]
  exact pow_exp_congr hyz hexp

/-- The `SpentCoin::verify` equation: c1^d * c2 ≡ g1^r1 * g2^r2 (mod p)
for honest c1 = (g1^u1 * g2)^s, c2 = g1^x1 * g2^x2 and spend responses
r1 = (d*u1*s + x1) mod q, r2 = (d*s + x2) mod q. -/
theorem spend_verify_eq (p q g1 g2 u1 s x1 x2 d : Nat)
    (hg1 : modpow g1 q p = 1) (hg2 : modpow g2 q p = 1) :
    (modpow (modpow (modpow g1 u1 p * g2) s p) d p
        * (modpow g1 x1 p * modpow g2 x2 p)) % p
      = (modpow g1 ((d * u1 * s + x1) % q) p
        * modpow g2 ((d * s + x2) % q) p) % p := by
  have hg1z : (g1 : ZMod p) ^ q = 1 := by
    have hc := congrArg (Nat.cast : Nat → ZMod p) hg1
    rwa [modpow_cast, Nat.cast_one] at hc
  have hg2z : (g2 : ZMod p) ^ q = 1 := by
    have hc := congrArg (Nat.cast : Nat → ZMod p) hg2
    rwa [modpow_cast, Nat.cast_one] at hc
  simp only [modpow_eq]
  apply (ZMod.natCast_eq_natCast_iff' _ _ p).mp
  push_cast [ZMod.natCast_mod]
  rw [← pow_mod_of_pow_eq_one hg1z, ← pow_mod_of_pow_eq_one hg2z]
  ring

/-! ## Characterization of the honest run -/

/-- A successful honest run yields exactly the coin `honestCoinWith`,
with `uinv` the inverse of pc.u mod q and the coin's `cd` field equal to
the hash of its own first five components reduced mod p. -/
theorem honestRun_eq (ps : Params) (x u1 w : Nat) (pc : PartialCoin)
    (coin : Coin) (h : honestRun ps x u1 w pc = some coin) :
    ∃ uinv, modinv pc.u ps.q = some uinv
      ∧ coin.cd = coinHash ps coin
      ∧ coin = honestCoinWith ps x u1 w pc uinv coin.cd := by
  unfold honestRun honestSpender at h
  simp only [Issuer.new, Spender.new, Spender.set_registration_id,
    Issuer.register, Issuer.setup_withdrawal_params, Spender.withdraw,
    Issuer.withdrawal_response, Spender.make_coin] at h
  rcases hmod : modinv pc.u ps.q with _ | uinv <;> rw [hmod] at h
  · simp at h
  · simp only [Option.map_some'] at h
    obtain rfl := (Option.some.inj h).symm
    exact ⟨uinv, rfl, rfl, rfl⟩

/-- `Coin::verify` accepts `honestCoinWith` whenever the generators have
order dividing q, `uinv` inverts pc.u, `cd` is the hash of the coin's own
components, and c1 is not 1. -/
theorem verify_honest_core (ps : Params) (x u1 w : Nat) (pc : PartialCoin)
    (uinv cd : Nat)
    (hg : modpow ps.g ps.q ps.p = 1)
    (hg1 : modpow ps.g1 ps.q ps.p = 1)
    (hg2 : modpow ps.g2 ps.q ps.p = 1)
    (hu : pc.u * uinv % ps.q = 1 % ps.q)
    (hcd : cd = coinHash ps (honestCoinWith ps x u1 w pc uinv cd))
    (hc1 : (honestCoinWith ps x u1 w pc uinv cd).c1 ≠ 1) :
    Coin.verify (honestCoinWith ps x u1 w pc uinv cd)
      (modpow ps.g x ps.p) ps = true := by
  simp only [coinHash, honestCoinWith] at hcd hc1 ⊢
  simp only [Coin.verify]
  rw [if_neg hc1, ← hcd]
  rw [if_neg (not_ne_iff.mpr rfl)]
  rw [if_neg (not_ne_iff.mpr
    (verify_exp1 ps.p ps.q ps.g x w pc.u pc.v uinv cd hg hu))]
  rw [if_neg (not_ne_iff.mpr
    (verify_exp2 ps.p ps.q ps.g1 ps.g2 u1 x w pc.s pc.u pc.v uinv cd
      hg1 hg2 hu))]

/-! ## Claim theorems -/

/-- C1 (amended): every coin produced by the honest withdrawal protocol,
under Params satisfying the invariants, passes `Coin::verify` with the
issuer's public identity h = g^x mod p — provided the coin's first
component c1 is not 1 (an honest run that samples s = 0 produces c1 = 1
and is rejected). -/
theorem coin_verify_honest_of_c1_ne_one
    (ps : Params) (x u1 w : Nat) (pc : PartialCoin) (coin : Coin)
    (_hpp : Nat.Prime ps.p) (_hqp : Nat.Prime ps.q)
    (_hpq : ps.p = 2 * ps.q + 1) (_hq2 : ps.q ≠ 2)
    (hg : modpow ps.g ps.q ps.p = 1)
    (hg1 : modpow ps.g1 ps.q ps.p = 1)
    (hg2 : modpow ps.g2 ps.q ps.p = 1)
    (_hgg1 : ps.g ≠ ps.g1) (_hgg2 : ps.g ≠ ps.g2) (_hg1g2 : ps.g1 ≠ ps.g2)
    (hrun : honestRun ps x u1 w pc = some coin)
    (hc1 : coin.c1 ≠ 1) :
    Coin.verify coin (Issuer.new ps x).h ps = true := by
  obtain ⟨uinv, hmod, hcd, hco⟩ := honestRun_eq ps x u1 w pc coin hrun
  have hu := modinv_mul hmod
  have hcd2 : coin.cd
      = coinHash ps (honestCoinWith ps x u1 w pc uinv coin.cd) := by
    rw [← hco]; exact hcd
  have hmain := verify_honest_core ps x u1 w pc uinv coin.cd hg hg1 hg2 hu
    hcd2 (by rw [← hco]; exact hc1)
  show Coin.verify coin (modpow ps.g x ps.p) ps = true
  rw [hco]
  exact hmain

/-- C1 counterexample: with the S1 toy parameters (which satisfy every
Params invariant), an honest run that samples s = 0 produces a coin that
`Coin::verify` rejects. -/
theorem coin_verify_honest_fails_when_s_zero :
    Nat.Prime tParams.p ∧ Nat.Prime tParams.q
      ∧ tParams.p = 2 * tParams.q + 1 ∧ tParams.q ≠ 2
      ∧ modpow tParams.g tParams.q tParams.p = 1
      ∧ modpow tParams.g1 tParams.q tParams.p = 1
      ∧ modpow tParams.g2 tParams.q tParams.p = 1
      ∧ tParams.g ≠ tParams.g1 ∧ tParams.g ≠ tParams.g2
      ∧ tParams.g1 ≠ tParams.g2
      ∧ honestRun tParams 7 5 3 ⟨0, 4, 6, 9, 1⟩
          = some ⟨1, 24, 1, 18, 1, 2, 1⟩
      ∧ Coin.verify ⟨1, 24, 1, 18, 1, 2, 1⟩ (Issuer.new tParams 7).h tParams
          = false := by
  decide

/-- Witness for C1 at the honest S1 toy run. -/
theorem coin_verify_honest_witness :
    Coin.verify tCoin (Issuer.new tParams 7).h tParams = true :=
  coin_verify_honest_of_c1_ne_one tParams 7 5 3 tPC tCoin
    (by decide) (by decide) (by decide) (by decide)
    (by decide) (by decide) (by decide)
    (by decide) (by decide) (by decide)
    (by decide) (by decide)

/-- C3: every honest spend of an honestly withdrawn coin passes
`SpentCoin::verify` against its challenge, for parameters whose
generators g1, g2 have order dividing q. -/
theorem spent_coin_verify_honest
    (ps : Params) (x u1 w : Nat) (pc : PartialCoin) (coin : Coin)
    (d : CoinChallenge)
    (hg1 : modpow ps.g1 ps.q ps.p = 1)
    (hg2 : modpow ps.g2 ps.q ps.p = 1)
    (hrun : honestRun ps x u1 w pc = some coin) :
    SpentCoin.verify ((honestSpender ps x u1).spend coin pc d) d ps
      = true := by
  obtain ⟨uinv, hmod, hcd, hco⟩ := honestRun_eq ps x u1 w pc coin hrun
  simp only [SpentCoin.verify, Spender.spend, honestSpender, Spender.new,
    Spender.set_registration_id]
  rw [hco]
  simp only [honestCoinWith]
  rw [decide_eq_true_eq]
  exact spend_verify_eq ps.p ps.q ps.g1 ps.g2 u1 pc.s pc.x1 pc.x2 d.val
    hg1 hg2

/-- Witness for C3: the toy coin spent against the challenge 5. -/
theorem spent_coin_verify_honest_witness :
    SpentCoin.verify (tSpender.spend tCoin tPC ⟨5⟩) ⟨5⟩ tParams = true :=
  spent_coin_verify_honest tParams 7 5 3 tPC tCoin ⟨5⟩
    (by decide) (by decide) (by decide)

/-- C7: `Coin::verify` returns false for every coin whose c1 component is
1, regardless of the other fields, h and params. -/
theorem coin_verify_rejects_c1_one (c : Coin) (h : Nat) (ps : Params)
    (hc1 : c.c1 = 1) : Coin.verify c h ps = false := by
  simp only [Coin.verify, if_pos hc1]

/-- Witness for C7 at a concrete coin. -/
theorem coin_verify_rejects_c1_one_witness :
    Coin.verify ⟨1, 2, 3, 4, 5, 6, 7⟩ 9 tParams = false :=
  coin_verify_rejects_c1_one ⟨1, 2, 3, 4, 5, 6, 7⟩ 9 tParams rfl

/-- C8: `SpentCoin` equality is exactly component-wise equality of the
inner coin; the (r1, r2) pairs play no role. -/
theorem spent_coin_eq_inner_coin :
    ∀ x y : SpentCoin, spentCoinEq x y = true ↔
      (x.coin.c1 = y.coin.c1 ∧ x.coin.c2 = y.coin.c2
        ∧ x.coin.c3 = y.coin.c3 ∧ x.coin.c4 = y.coin.c4
        ∧ x.coin.c5 = y.coin.c5 ∧ x.coin.c6 = y.coin.c6
        ∧ x.coin.cd = y.coin.cd) := by
  intro x y
  simp [spentCoinEq, coinEq, and_assoc]

/-- C6: `CoinChallenge::new` returns the raw hash-to-number value with no
modular reduction, while the Fiat-Shamir value of `Spender::withdraw` and
its recomputation inside `Coin::verify` are reduced mod p. -/
theorem challenge_hash_reduction :
    (∀ (message : List Nat) (coin : Coin),
        (CoinChallenge.new message coin).val
          = hash_to_number message [toBytesLE coin.c1, toBytesLE coin.c2])
    ∧ (∀ (sp : Spender) (wsp : WithdrawalParams) (pc : PartialCoin)
        (wd : Withdrawal) (wc : WithdrawalChallenge),
        sp.withdraw wsp pc = some (wd, wc) →
          wd.challengeD = hash_to_number sp.params.schemeKey
            [toBytesLE wd.a, toBytesLE wd.b, toBytesLE wd.zd,
             toBytesLE wd.ad, toBytesLE wd.bd] % sp.params.p)
    ∧ (∀ (c : Coin) (h : Nat) (ps : Params),
        c.c1 ≠ 1 → c.cd ≠ coinHash ps c → Coin.verify c h ps = false) := by
  refine ⟨fun message coin => rfl, ?_, ?_⟩
  · intro sp wsp pc wd wc h
    simp only [Spender.withdraw] at h
    rcases hz : sp.z with _ | z <;> rw [hz] at h
    · simp at h
    · rcases hmod : modinv pc.u sp.params.q with _ | uinv <;> rw [hmod] at h
      · simp at h
      · rw [Option.some.injEq, Prod.mk.injEq] at h
        obtain ⟨h1, _⟩ := h
        rw [← h1]
  · intro c h ps hc1 hcd
    simp only [coinHash] at hcd
    simp only [Coin.verify, if_neg hc1, if_pos hcd]

/-- Witness for C6: the raw challenge equation at a concrete coin and a
rejected concrete coin with mismatched cd. -/
theorem challenge_hash_reduction_witness :
    (CoinChallenge.new [109] tCoin).val
        = hash_to_number [109] [toBytesLE 13, toBytesLE 24]
      ∧ Coin.verify ⟨5, 5, 5, 5, 5, 5, 5⟩ 9 tParams = false :=
  ⟨challenge_hash_reduction.1 [109] tCoin,
   challenge_hash_reduction.2.2 ⟨5, 5, 5, 5, 5, 5, 5⟩ 9 tParams
     (by decide) (by decide)⟩

/-- The positive-representative difference computed by `reveal_identity`
casts to the plain difference in `ZMod q`. -/
theorem diff_cast {q : Nat} (a b : Nat) (hb : b < q) :
    (((if b < a then a - b else (a + q - b) % q) : Nat) : ZMod q)
      = (a : ZMod q) - b := by
  split
  · rw [Nat.cast_sub (Nat.le_of_lt (by assumption))]
  · rw [ZMod.natCast_mod, Nat.cast_sub (by omega : b ≤ a + q)]
    push_cast [ZMod.natCast_self]
    ring

/-- C2 (amended): for two honest spends of the same coin and partial coin
by a spender with secret u1 < q and public identity i = g1^u1 mod p,
`reveal_identity` returns exactly i — provided q is prime, the two
challenges are distinct *modulo q*, and the partial coin's blinding
scalar s is not divisible by q. -/
theorem reveal_identity_honest_of_distinct_mod_q
    (ps : Params) (u1 : Nat) (coin : Coin) (pc : PartialCoin)
    (d1 d2 : CoinChallenge)
    (hq : Nat.Prime ps.q) (hu1 : u1 < ps.q)
    (hd : d1.val % ps.q ≠ d2.val % ps.q) (hs : pc.s % ps.q ≠ 0) :
    SpentCoin.reveal_identity ((Spender.new ps u1).spend coin pc d1)
      ((Spender.new ps u1).spend coin pc d2) ps
      = some (Spender.new ps u1).i := by
  haveI := Fact.mk hq
  have hq1 : 1 < ps.q := hq.one_lt
  have hq0 : 0 < ps.q := by omega
  haveI : NeZero ps.q := ⟨by omega⟩
  simp only [SpentCoin.reveal_identity, Spender.spend, Spender.new]
  rw [if_neg (by simp [spentCoinEq, coinEq])]
  set r1a := (d1.val * u1 * pc.s + pc.x1) % ps.q with hr1a
  set r1b := (d2.val * u1 * pc.s + pc.x1) % ps.q with hr1b
  set r2a := (d1.val * pc.s + pc.x2) % ps.q with hr2a
  set r2b := (d2.val * pc.s + pc.x2) % ps.q with hr2b
  set dr1 := if r1b < r1a then r1a - r1b else (r1a + ps.q - r1b) % ps.q
    with hdr1
  set dr2 := if r2b < r2a then r2a - r2b else (r2a + ps.q - r2b) % ps.q
    with hdr2
  have hr2bLt : r2b < ps.q := by rw [hr2b]; exact Nat.mod_lt _ hq0
  have hr1bLt : r1b < ps.q := by rw [hr1b]; exact Nat.mod_lt _ hq0
  have hdz : ((d1.val : ZMod ps.q) - d2.val) ≠ 0 := by
    rw [sub_ne_zero]
    intro hcast
    exact hd ((ZMod.natCast_eq_natCast_iff' _ _ _).mp hcast)
  have hsz : (pc.s : ZMod ps.q) ≠ 0 := fun hcast =>
    hs (Nat.dvd_iff_mod_eq_zero.mp
      ((ZMod.natCast_zmod_eq_zero_iff_dvd _ _).mp hcast))
  have hdr2c : ((dr2 : Nat) : ZMod ps.q)
      = ((d1.val : ZMod ps.q) - d2.val) * pc.s := by
    rw [hdr2, diff_cast r2a r2b hr2bLt, hr2a, hr2b,
      ZMod.natCast_mod, ZMod.natCast_mod]
    push_cast
    ring
  have hdr1c : ((dr1 : Nat) : ZMod ps.q)
      = ((d1.val : ZMod ps.q) - d2.val) * u1 * pc.s := by
    rw [hdr1, diff_cast r1a r1b hr1bLt, hr1a, hr1b,
      ZMod.natCast_mod, ZMod.natCast_mod]
    push_cast
    ring
  have hdr2z : ((dr2 : Nat) : ZMod ps.q) ≠ 0 := by
    rw [hdr2c]; exact mul_ne_zero hdz hsz
  have hgcd : Nat.gcd dr2 ps.q = 1 := by
    have hnd : ¬ ps.q ∣ dr2 := by
      intro hdvd
      exact hdr2z ((ZMod.natCast_zmod_eq_zero_iff_dvd _ _).mpr hdvd)
    exact Nat.coprime_comm.mp (hq.coprime_iff_not_dvd.mpr hnd)
  obtain ⟨inv, hinv⟩ := Option.isSome_iff_exists.mp
    (modinv_isSome hq1 hgcd)
  rw [hinv]
  have hinvz : ((dr2 : Nat) : ZMod ps.q) * inv = 1 := by
    have hm := modinv_mul hinv
    have hc := congrArg (Nat.cast : Nat → ZMod ps.q) hm
    rwa [ZMod.natCast_mod, ZMod.natCast_mod, Nat.cast_mul, Nat.cast_one]
      at hc
  have hexpz : ((dr1 * inv % ps.q : Nat) : ZMod ps.q) = (u1 : ZMod ps.q) := by
    rw [ZMod.natCast_mod, Nat.cast_mul, hdr1c]
    calc ((d1.val : ZMod ps.q) - d2.val) * u1 * pc.s * inv
        = (u1 : ZMod ps.q)
            * (((d1.val : ZMod ps.q) - d2.val) * pc.s * inv) := by ring
      _ = (u1 : ZMod ps.q) * 1 := by rw [← hdr2c, hinvz]
      _ = (u1 : ZMod ps.q) := mul_one _
  have hexp : dr1 * inv % ps.q = u1 := by
    have hmod := (ZMod.natCast_eq_natCast_iff' _ _ _).mp hexpz
    rwa [Nat.mod_mod_of_dvd _ (dvd_refl ps.q), Nat.mod_eq_of_lt hu1] at hmod
  show some (modpow ps.g1 (dr1 * inv % ps.q) ps.p)
    = some (modpow ps.g1 u1 ps.p)
  rw [hexp]

/-- C2 counterexample: an honest double spend of the honest toy coin,
under the receiver challenges for the two distinct messages [107, 71] and
[107, 73] whose raw challenge values happen to be congruent mod q: the two
challenges differ, yet `reveal_identity` hits the failing modular
inversion (the Rust `unwrap` panics, modelled none) and does not return
the spender's identity i = 13. -/
theorem reveal_identity_fails_mod_q_collision :
    honestRun tParams 7 5 3 tPC = some tCoin
    ∧ (CoinChallenge.new [107, 71] tCoin).val
        ≠ (CoinChallenge.new [107, 73] tCoin).val
    ∧ tSpender.i = 13
    ∧ SpentCoin.reveal_identity
        (tSpender.spend tCoin tPC (CoinChallenge.new [107, 71] tCoin))
        (tSpender.spend tCoin tPC (CoinChallenge.new [107, 73] tCoin))
        tParams = none := by
  decide

/-- Witness for C2 at the toy coin with challenges 1 and 2. -/
theorem reveal_identity_honest_witness :
    SpentCoin.reveal_identity ((Spender.new tParams 5).spend tCoin tPC ⟨1⟩)
      ((Spender.new tParams 5).spend tCoin tPC ⟨2⟩) tParams
      = some (Spender.new tParams 5).i :=
  reveal_identity_honest_of_distinct_mod_q tParams 5 tCoin tPC ⟨1⟩ ⟨2⟩
    (by decide) (by decide) (by decide) (by decide)

/-- C4 (amended): `Spender::withdraw` stores B, a′ and b′ as the raw
products of two already-reduced modular powers, with no trailing
reduction mod p: each lies below p² (not necessarily in [1, p−1]) and is
congruent mod p to the fully reduced value the specification prescribes. -/
theorem withdraw_products_unreduced
    (sp : Spender) (wsp : WithdrawalParams) (pc : PartialCoin)
    (wd : Withdrawal) (wc : WithdrawalChallenge)
    (hp : 0 < sp.params.p)
    (h : sp.withdraw wsp pc = some (wd, wc)) :
    wd.b = modpow sp.params.g1 pc.x1 sp.params.p
        * modpow sp.params.g2 pc.x2 sp.params.p
    ∧ wd.ad = modpow wsp.a pc.u sp.params.p
        * modpow sp.params.g pc.v sp.params.p
    ∧ wd.bd = modpow wsp.b (pc.s * pc.u) sp.params.p
        * modpow wd.a pc.v sp.params.p
    ∧ wd.b < sp.params.p * sp.params.p
    ∧ wd.b % sp.params.p
        = sp.params.g1 ^ pc.x1 * sp.params.g2 ^ pc.x2 % sp.params.p := by
  simp only [Spender.withdraw] at h
  rcases hz : sp.z with _ | z <;> rw [hz] at h
  · simp at h
  · rcases hmod : modinv pc.u sp.params.q with _ | uinv <;> rw [hmod] at h
    · simp at h
    · rw [Option.some.injEq, Prod.mk.injEq] at h
      obtain ⟨h1, _⟩ := h
      subst h1
      refine ⟨rfl, rfl, rfl, ?_, ?_⟩
      · show modpow sp.params.g1 pc.x1 sp.params.p
            * modpow sp.params.g2 pc.x2 sp.params.p
            < sp.params.p * sp.params.p
        have hb1 : modpow sp.params.g1 pc.x1 sp.params.p < sp.params.p := by
          rw [modpow_eq]; exact Nat.mod_lt _ hp
        have hb2 : modpow sp.params.g2 pc.x2 sp.params.p < sp.params.p := by
          rw [modpow_eq]; exact Nat.mod_lt _ hp
        exact mul_lt_mul'' hb1 hb2 (Nat.zero_le _) (Nat.zero_le _)
      · show (modpow sp.params.g1 pc.x1 sp.params.p
            * modpow sp.params.g2 pc.x2 sp.params.p) % sp.params.p
            = sp.params.g1 ^ pc.x1 * sp.params.g2 ^ pc.x2 % sp.params.p
        rw [modpow_eq, modpow_eq]
        exact (Nat.mul_mod _ _ _).symm

/-- C4 counterexample: in the S1 toy run the stored B is 24 = 9 · 16,
outside the group range [1, 22] of p = 23 — it was not reduced mod p. -/
theorem withdraw_b_unreduced_example :
    ((tSpender.withdraw tWParams tPC).map (fun wdc => wdc.1.b)) = some 24
    ∧ ¬ (24 : Nat) ≤ tParams.p - 1 := by
  decide

/-- Witness for C4 at the S1 toy withdrawal. -/
theorem withdraw_products_unreduced_witness :
    (24 : Nat) = modpow 3 4 23 * modpow 4 6 23
    ∧ (18 : Nat) = modpow 8 9 23 * modpow 2 1 23
    ∧ (52 : Nat) = modpow 9 18 23 * modpow 13 1 23
    ∧ (24 : Nat) < 23 * 23
    ∧ (24 : Nat) % 23 = 3 ^ 4 * 4 ^ 6 % 23 :=
  withdraw_products_unreduced tSpender tWParams tPC
    ⟨8, 9, 7, 13, 24, 9, 18, 52, tPC⟩ ⟨2⟩ (by decide) (by decide)

/-- C5 (amended): calling withdraw or verify_withdrawal_response before
set_registration_id panics on the `unwrap` of the unset z — the crate
defines no error type, and the panic is modelled by `none`; once z is
set, neither operation fails for that reason: verify_withdrawal_response
always returns a boolean, and withdraw can fail only at the modular
inversion of the sampled u. -/
theorem unregistered_behavior
    (ps : Params) (u1 z : Nat) (wsp : WithdrawalParams) (pc : PartialCoin)
    (h : Nat) (wd : Withdrawal) (wc : WithdrawalChallenge)
    (wr : WithdrawalResponse) :
    ((Spender.new ps u1).withdraw wsp pc = none
      ∧ (Spender.new ps u1).verify_withdrawal_response h wd wc wr = none)
    ∧ ((Spender.new ps u1).set_registration_id z).verify_withdrawal_response
        h wd wc wr ≠ none
    ∧ ((((Spender.new ps u1).set_registration_id z).withdraw wsp pc).isSome
        ↔ (modinv pc.u ps.q).isSome) := by
  refine ⟨⟨rfl, rfl⟩, ?_, ?_⟩
  · simp only [Spender.verify_withdrawal_response,
      Spender.set_registration_id, Spender.new]
    split
    · simp
    · split <;> simp
  · simp only [Spender.withdraw, Spender.set_registration_id, Spender.new]
    rcases hmod : modinv pc.u ps.q with _ | uinv <;> simp [hmod]

/-- C5 counterexample: before registration the two calls produce the
panic value (`none`), not a typed NotRegistered error — the Rust return
types `(Withdrawal, WithdrawalChallenge)` and `bool` carry no error
variant at all. -/
theorem withdraw_unregistered_panics_example :
    (Spender.new tParams 5).withdraw tWParams tPC = none
    ∧ (Spender.new tParams 5).verify_withdrawal_response 13
        ⟨8, 9, 7, 13, 24, 9, 18, 52, tPC⟩ ⟨2⟩ ⟨6⟩ = none := by
  decide

/-- Each prime the `rand_prime` search returns is prime. -/
theorem findPrimeFrom_prime :
    ∀ fuel n q, findPrimeFrom fuel n = some q → Nat.Prime q := by
  intro fuel
  induction fuel with
  | zero => intro n q h; simp [findPrimeFrom] at h
  | succ f ih =>
    intro n q h
    simp only [findPrimeFrom] at h
    split at h
    · cases Option.some.inj h; assumption
    · exact ih _ _ h

/-- Each generator `find_generator` returns satisfies x^q mod p = 1. -/
theorem find_generator_spec (p q : Nat) :
    ∀ l g, find_generator p q l = some g → modpow g q p = 1 := by
  intro l
  induction l with
  | nil => intro g h; simp [find_generator] at h
  | cons a rest ih =>
    intro g h
    simp only [find_generator] at h
    split at h
    · cases Option.some.inj h; assumption
    · exact ih g h

/-- C9 (amended): every `Params` returned by `random_params` has p and q
prime, p = 2q + 1, q ≠ 2, and each of g, g1, g2 satisfying x^q ≡ 1
(mod p); pairwise distinctness of the generators is NOT guaranteed — the
three are sampled independently with no collision check. -/
theorem random_params_invariants (key : List Nat) (fuel : Nat) :
    ∀ atts ps, random_params key fuel atts = some ps →
      Nat.Prime ps.p ∧ Nat.Prime ps.q ∧ ps.p = 2 * ps.q + 1 ∧ ps.q ≠ 2
      ∧ modpow ps.g ps.q ps.p = 1 ∧ modpow ps.g1 ps.q ps.p = 1
      ∧ modpow ps.g2 ps.q ps.p = 1 := by
  intro atts
  induction atts with
  | nil => intro ps h; simp [random_params] at h
  | cons att rest ih =>
    intro ps h
    rcases hq : findPrimeFrom fuel att.n with _ | q <;>
      simp only [random_params, hq] at h
    · exact Option.noConfusion h
    by_cases hq2 : q = 2
    · rw [if_pos hq2] at h; exact ih ps h
    · rw [if_neg hq2] at h
      by_cases hpp : Nat.Prime (2 * q + 1)
      · rw [if_pos hpp] at h
        rcases hg : find_generator (2 * q + 1) q att.gs with _ | g <;>
          rcases hg1 : find_generator (2 * q + 1) q att.g1s with _ | g1 <;>
            rcases hg2 : find_generator (2 * q + 1) q att.g2s with _ | g2 <;>
              simp only [hg, hg1, hg2] at h
        all_goals first
        | exact Option.noConfusion h
        | (obtain rfl := Option.some.inj h
           exact ⟨hpp, findPrimeFrom_prime fuel att.n q hq, rfl, hq2,
             find_generator_spec _ _ att.gs g hg,
             find_generator_spec _ _ att.g1s g1 hg1,
             find_generator_spec _ _ att.g2s g2 hg2⟩)
      · rw [if_neg hpp] at h; exact ih ps h

/-- C9 counterexample: with random draws that propose the candidate 3 for
all three generators, `random_params` returns Params with g = g1 = g2 = 3
(p = 11, q = 5): the generators are not pairwise distinct. -/
theorem random_params_collision_example :
    random_params [] 10 [⟨5, [3], [3], [3]⟩] = some ⟨[], 11, 5, 3, 3, 3⟩
    ∧ (⟨[], 11, 5, 3, 3, 3⟩ : Params).g = (⟨[], 11, 5, 3, 3, 3⟩ : Params).g1
    ∧ (⟨[], 11, 5, 3, 3, 3⟩ : Params).g1
        = (⟨[], 11, 5, 3, 3, 3⟩ : Params).g2 := by
  decide

/-- Witness for C9 at the concrete collision run. -/
theorem random_params_invariants_witness :
    Nat.Prime 11 ∧ Nat.Prime 5 ∧ (11 : Nat) = 2 * 5 + 1 ∧ (5 : Nat) ≠ 2
      ∧ modpow 3 5 11 = 1 ∧ modpow 3 5 11 = 1 ∧ modpow 3 5 11 = 1 :=
  random_params_invariants [] 10 [⟨5, [3], [3], [3]⟩] ⟨[], 11, 5, 3, 3, 3⟩
    (by decide)

/-- C10: withdraw by a registered spender is total exactly when the
sampled blinding scalar u is invertible mod q: for prime q it returns
normally whenever 0 < u < q, and panics at the modular inversion
(modelled none) when u = 0. -/
theorem withdraw_total_iff_u_nonzero
    (ps : Params) (u1 z : Nat) (wsp : WithdrawalParams) (pc : PartialCoin)
    (hq : Nat.Prime ps.q) :
    (0 < pc.u → pc.u < ps.q →
      (((Spender.new ps u1).set_registration_id z).withdraw wsp pc).isSome)
    ∧ (pc.u = 0 →
      ((Spender.new ps u1).set_registration_id z).withdraw wsp pc
        = none) := by
  constructor
  · intro h0 hlt
    simp only [Spender.withdraw, Spender.set_registration_id, Spender.new]
    have hnd : ¬ ps.q ∣ pc.u := fun hdvd =>
      absurd (Nat.le_of_dvd h0 hdvd) (not_le.mpr hlt)
    have hgcd : Nat.gcd pc.u ps.q = 1 :=
      Nat.coprime_comm.mp (hq.coprime_iff_not_dvd.mpr hnd)
    obtain ⟨uinv, hmod⟩ := Option.isSome_iff_exists.mp
      (modinv_isSome hq.one_lt hgcd)
    rw [hmod]
    simp
  · intro h0
    simp only [Spender.withdraw, Spender.set_registration_id, Spender.new,
      h0, modinv_zero_eq_none hq.one_lt]

/-- Witness for C10: the toy withdrawal succeeds with u = 9 and panics
with u = 0. -/
theorem withdraw_total_iff_u_nonzero_witness :
    (tSpender.withdraw tWParams tPC).isSome
    ∧ tSpender.withdraw tWParams ⟨2, 4, 6, 0, 1⟩ = none :=
  ⟨(withdraw_total_iff_u_nonzero tParams 5 3 tWParams tPC (by decide)).1
      (by decide) (by decide),
   (withdraw_total_iff_u_nonzero tParams 5 3 tWParams ⟨2, 4, 6, 0, 1⟩
      (by decide)).2 rfl⟩

end Brands
